import Mathlib

/-!
Shallow embedding of `src/CustomDataAnalyzer.py` (a pandas-based Netflix
catalog analyzer) and proofs about its cleaning and aggregation pipeline.

A pandas cell is modelled by `Value`: `null` stands for NaN/missing, `str`
for a Python string, `num` for a numeric value (modelled as `Rat`).
A `DataFrame` is modelled by `Table`: a list of column names and a list of
rows, each row a positional list of values aligned with the columns.
Operations that can raise a Python exception return `Res`.
-/

set_option autoImplicit false

inductive Value where
  | null
  | str (s : String)
  | num (q : Rat)
  deriving DecidableEq, Repr

/-- Result of a Python computation: a value, or a raised exception message. -/
inductive Res (α : Type) where
  | ok (a : α)
  | err (msg : String)
  deriving DecidableEq, Repr

def Value.isStr : Value → Bool
  | .str _ => true
  | _ => false

def Value.isNum : Value → Bool
  | .num _ => true
  | _ => false

def Value.numOf? : Value → Option Rat
  | .num q => some q
  | _ => none

/-! ### Python `str.strip` modelled on `List Char` -/

def wsp (c : Char) : Bool := c.isWhitespace

/-- Strip leading and trailing whitespace, as Python `str.strip()` does. -/
def pyStripList (l : List Char) : List Char :=
  ((l.dropWhile wsp).reverse.dropWhile wsp).reverse

def pyStrip (s : String) : String :=
  String.mk (pyStripList s.toList)

/-! ### Numeric parsing, modelling `pd.to_numeric` / `float` / `int` -/

def digitsToNat? (l : List Char) : Option Nat :=
  if l.isEmpty then none
  else if l.all Char.isDigit then
    some (l.foldl (fun a c => a * 10 + (c.toNat - 48)) 0)
  else none

/-- Parse a decimal literal (optional sign, optional fractional part). -/
def parseRat? (s : String) : Option Rat :=
  let cs := (pyStrip s).toList
  let sgn : Int := match cs with
    | '-' :: _ => -1
    | _ => 1
  let body : List Char := match cs with
    | '-' :: rest => rest
    | '+' :: rest => rest
    | _ => cs
  let intPart := body.takeWhile (fun c => c ≠ '.')
  let rest := body.dropWhile (fun c => c ≠ '.')
  match rest with
  | [] => (digitsToNat? intPart).map (fun n => ((sgn * n : Int) : Rat))
  | _ :: frac =>
    match digitsToNat? intPart, digitsToNat? frac with
    | some ip, some fp =>
      some ((sgn : Rat) * ((ip : Rat) + (fp : Rat) / ((10 : Rat) ^ frac.length)))
    | _, _ => none

/-- Parse an integer literal, as Python `int(string)` accepts. -/
def parseInt? (s : String) : Option Int :=
  let cs := (pyStrip s).toList
  let sgn : Int := match cs with
    | '-' :: _ => -1
    | _ => 1
  let body : List Char := match cs with
    | '-' :: rest => rest
    | '+' :: rest => rest
    | _ => cs
  (digitsToNat? body).map (fun n => sgn * n)

/-! ### The table model -/

structure Table where
  cols : List String
  rows : List (List Value)
  deriving DecidableEq, Repr

/-- Index of a column name, `df.columns.get_loc`-style (first match). -/
def colIdx? (cols : List String) (c : String) : Option Nat :=
  match cols with
  | [] => none
  | c' :: rest => if c' = c then some 0 else (colIdx? rest c).map (· + 1)

/-- Membership test `c in df.columns`. -/
def hasCol (t : Table) (c : String) : Bool :=
  (colIdx? t.cols c).isSome

/-- The values of column `i`, positionally (missing entries read as null). -/
def columnAt (t : Table) (i : Nat) : List Value :=
  t.rows.map (fun r => r.getD i .null)

/-- The values of the column named `c` (empty if the column is absent). -/
def columnN (t : Table) (c : String) : List Value :=
  match colIdx? t.cols c with
  | some i => columnAt t i
  | none => []

/-- A pandas column has dtype `object` iff it holds at least one string. -/
def colIsObject (t : Table) (i : Nat) : Bool :=
  t.rows.any (fun r => (r.getD i .null).isStr)

def colIsObjectName (t : Table) (c : String) : Bool :=
  match colIdx? t.cols c with
  | some i => colIsObject t i
  | none => false

/-! ### `clean_data` (source lines 20-46) -/

/-- Model of `df.drop_duplicates()`: keep the first occurrence of each row.
pandas treats NaN entries as equal to each other here, as does `Value.null`. -/
def dedupAux (seen : List (List Value)) : List (List Value) → List (List Value)
  | [] => []
  | r :: rs => if r ∈ seen then dedupAux seen rs else r :: dedupAux (r :: seen) rs

def dedupTable (t : Table) : Table :=
  ⟨t.cols, dedupAux [] t.rows⟩

/-- Elementwise `.str.strip()` on an object column: strings are trimmed,
NaN stays NaN, and non-string values of an object column become NaN. -/
def stripValue : Value → Value
  | .str s => .str (pyStrip s)
  | _ => .null

/-- One row of the whitespace-trimming step: position `i` is trimmed when
column `i` has object dtype, otherwise untouched. -/
def stripRow (t : Table) (r : List Value) : List Value :=
  (List.range t.cols.length).map (fun i =>
    if colIsObject t i then stripValue (r.getD i .null) else r.getD i .null)

/-- The whitespace-trimming step of `clean_data`: every object-dtype column
is passed through `.str.strip()`; other columns are untouched. -/
def stripTable (t : Table) : Table :=
  ⟨t.cols, t.rows.map (stripRow t)⟩

/-- The `title` filter: `df[df['title'].notna()]` when the column exists. -/
def filterTitle (t : Table) : Table :=
  match colIdx? t.cols "title" with
  | some i => ⟨t.cols, t.rows.filter (fun r => r.getD i .null != Value.null)⟩
  | none => t

/-- One cell of `pd.to_numeric(col, errors='coerce')`: numbers pass through,
parseable strings become numbers, anything else becomes NaN. -/
def coerceValue : Value → Value
  | .num q => .num q
  | .str s =>
    match parseRat? s with
    | some q => .num q
    | none => .null
  | .null => .null

/-- The `release_year` coercion step of `clean_data`. -/
def coerceYears (t : Table) : Table :=
  match colIdx? t.cols "release_year" with
  | some i => ⟨t.cols, t.rows.map (fun r => r.set i (coerceValue (r.getD i .null)))⟩
  | none => t

def clean_data (t : Table) : Table :=
  coerceYears (filterTitle (stripTable (dedupTable t)))

theorem clean_data_sample :
    clean_data ⟨["title", "release_year"], [[.str " A", .str "2020"], [.str "A", .str "abc"]]⟩
      = ⟨["title", "release_year"], [[.str "A", .num 2020], [.str "A", .null]]⟩ := by
  decide

/-! ### Series reductions, modelling pandas `min` / `max` / `mean` and
Python `int` / `float` conversions -/

/-- Code-point lexicographic comparison, as Python compares strings. -/
def charListLt : List Char → List Char → Bool
  | [], [] => false
  | [], _ :: _ => true
  | _ :: _, [] => false
  | a :: as, b :: bs =>
    if a.toNat < b.toNat then true
    else if b.toNat < a.toNat then false
    else charListLt as bs

def strLtB (a b : String) : Bool := charListLt a.toList b.toList


/-- Model of `series.min()`: NaN entries are skipped; an all-NaN or empty series gives
NaN; an object column of strings gives the lexicographic minimum; a column
mixing strings and numbers raises `TypeError`. -/
def seriesMin (vs : List Value) : Res Value :=
  let nn := vs.filter (fun v => v != Value.null)
  match nn with
  | [] => .ok .null
  | _ =>
    if nn.all Value.isNum then
      match nn.filterMap Value.numOf? with
      | [] => .ok .null
      | q :: qs => .ok (.num (qs.foldl (fun a b => if b < a then b else a) q))
    else if nn.all Value.isStr then
      match nn.filterMap (fun v => match v with | .str s => some s | _ => none) with
      | [] => .ok .null
      | s :: ss => .ok (.str (ss.foldl (fun a b => if strLtB b a then b else a) s))
    else .err "TypeError: unorderable mixed types"

/-- Model of `series.max()`, symmetric to `seriesMin`. -/
def seriesMax (vs : List Value) : Res Value :=
  let nn := vs.filter (fun v => v != Value.null)
  match nn with
  | [] => .ok .null
  | _ =>
    if nn.all Value.isNum then
      match nn.filterMap Value.numOf? with
      | [] => .ok .null
      | q :: qs => .ok (.num (qs.foldl (fun a b => if a < b then b else a) q))
    else if nn.all Value.isStr then
      match nn.filterMap (fun v => match v with | .str s => some s | _ => none) with
      | [] => .ok .null
      | s :: ss => .ok (.str (ss.foldl (fun a b => if strLtB a b then b else a) s))
    else .err "TypeError: unorderable mixed types"

/-- Model of `series.mean()`: the arithmetic mean of the non-NaN entries; NaN when
there are none; raises `TypeError` on string entries. -/
def seriesMean (vs : List Value) : Res Value :=
  let nn := vs.filter (fun v => v != Value.null)
  if nn.any Value.isStr then .err "TypeError: could not convert string to float"
  else
    match nn.filterMap Value.numOf? with
    | [] => .ok .null
    | q :: qs => .ok (.num ((qs.foldl (· + ·) q) / ((qs.length : Rat) + 1)))

/-- Python `int(x)`: floats truncate toward zero, numeric strings parse,
`int(NaN)` raises `ValueError`. -/
def pyInt (v : Value) : Res Int :=
  match v with
  | .num q => .ok (Int.tdiv q.num (q.den : Int))
  | .str s =>
    match parseInt? s with
    | some n => .ok n
    | none => .err "ValueError: invalid literal for int"
  | .null => .err "ValueError: cannot convert float NaN to integer"

/-- Python `float(x)`: NaN passes through, numbers pass through,
numeric strings parse. -/
def pyFloat (v : Value) : Res Value :=
  match v with
  | .null => .ok .null
  | .num q => .ok (.num q)
  | .str s =>
    match parseRat? s with
    | some q => .ok (.num q)
    | none => .err "ValueError: could not convert string to float"

/-! ### `summary_stats` (source lines 48-69) -/

/-- The candidate probe of lines 65-68: the first of
`IMDb Score`, `IMDB Score`, `imdb_score` present in the table. -/
def imdbFrom (t : Table) : List String → Option String
  | [] => none
  | c :: rest => if hasCol t c then some c else imdbFrom t rest

def imdbCandOf (t : Table) : Option String :=
  imdbFrom t ["IMDb Score", "IMDB Score", "imdb_score"]

/-- Lines 61-63: `int(df['release_year'].min())` and `int(... .max())`,
producing the `earliest_year` / `latest_year` entries. -/
def yearPart (t : Table) : Res (List (String × Value)) :=
  if hasCol t "release_year" then
    match seriesMin (columnN t "release_year") with
    | .err e => .err e
    | .ok mn =>
      match pyInt mn with
      | .err e => .err e
      | .ok a =>
        match seriesMax (columnN t "release_year") with
        | .err e => .err e
        | .ok mx =>
          match pyInt mx with
          | .err e => .err e
          | .ok b => .ok [("earliest_year", .num (a : Rat)), ("latest_year", .num (b : Rat))]
  else .ok []

/-- Lines 64-68: `float(df[col].mean())` for the first present candidate. -/
def imdbPart (t : Table) : Res (List (String × Value)) :=
  match imdbCandOf t with
  | none => .ok []
  | some c =>
    match seriesMean (columnN t c) with
    | .err e => .err e
    | .ok m =>
      match pyFloat m with
      | .err e => .err e
      | .ok f => .ok [("average_imdb_score", f)]

/-- Lines 54-59: `total_titles` always, then the `Movie` / `TV Show`
counters when a `type` column exists (case-sensitive exact match). -/
def statsBase (t : Table) : List (String × Value) :=
  let base : List (String × Value) := [("total_titles", .num (t.rows.length : Rat))]
  if hasCol t "type" then
    base ++
      [("num_movies", .num ((columnN t "type").countP (fun v => v == .str "Movie") : Rat)),
       ("num_tv_shows", .num ((columnN t "type").countP (fun v => v == .str "TV Show") : Rat))]
  else base

/-- The `summary_stats` function builds a dict in insertion order; the `stats` dict is
modelled as an association list.  The whole computation is fallible because
`int(NaN)` raises on an all-null `release_year` column. -/
def summary_stats (t : Table) : Res (List (String × Value)) :=
  match yearPart t with
  | .err e => .err e
  | .ok ys =>
    match imdbPart t with
    | .err e => .err e
    | .ok is => .ok (statsBase t ++ ys ++ is)

/-- Lookup in an association list built by `summary_stats`. -/
def lookupS (s : List (String × Value)) (k : String) : Option Value :=
  match s with
  | [] => none
  | (k', v) :: rest => if k' = k then some v else lookupS rest k

/-! ### `get_top_genres` (source lines 71-86) -/

/-- Split a character list on commas. -/
def splitComma (l : List Char) (acc : List Char) : List (List Char) :=
  match l with
  | [] => [acc.reverse]
  | c :: rest => if c = ',' then acc.reverse :: splitComma rest [] else splitComma rest (c :: acc)

/-- Model of `value.str.split(',') ... explode ... str.strip()` for one cell: a string
yields its trimmed comma-separated tags; a NaN (or non-string) cell yields a
single NaN which `value_counts` then drops, i.e. nothing. -/
def tagsOf : Value → List String
  | .str s => (splitComma s.toList []).map (fun cs => String.mk (pyStripList cs))
  | _ => []

/-- Occurrence tally in first-appearance order (the hashtable behind
`value_counts` keeps first-appearance order before sorting). -/
def bump {α : Type} [DecidableEq α] (g : α) : List (α × Nat) → List (α × Nat)
  | [] => [(g, 1)]
  | (h, k) :: rest => if h = g then (h, k + 1) :: rest else (h, k) :: bump g rest

def tally {α : Type} [DecidableEq α] (l : List α) : List (α × Nat) :=
  l.foldl (fun acc g => bump g acc) []

def lookupN {α : Type} [DecidableEq α] (s : List (α × Nat)) (g : α) : Nat :=
  match s with
  | [] => 0
  | (h, k) :: rest => if h = g then k else lookupN rest g

/-- Number of occurrences of `g` in a list, the specification that
`tally` is measured against. -/
def occCount {α : Type} [DecidableEq α] (g : α) (l : List α) : Nat :=
  (l.filter (fun x => x == g)).length

/-- Descending insertion sort by count, modelling the sort in
`value_counts` (whose tie order pandas does not specify). -/
def insertCnt {α : Type} (x : α × Nat) : List (α × Nat) → List (α × Nat)
  | [] => [x]
  | y :: ys => if y.2 < x.2 then x :: y :: ys else y :: insertCnt x ys

def sortCntDesc {α : Type} : List (α × Nat) → List (α × Nat)
  | [] => []
  | x :: xs => insertCnt x (sortCntDesc xs)

/-- Line 79: probe `listed_in`, then `genre`. -/
def genreColOf (t : Table) : Option String :=
  if hasCol t "listed_in" then some "listed_in"
  else if hasCol t "genre" then some "genre"
  else none

def get_top_genres (t : Table) (n : Nat) : List (String × Nat) :=
  match genreColOf t with
  | none => []
  | some c =>
    let tags := ((columnN t c).map tagsOf).flatten
    (sortCntDesc (tally tags)).take n

/-! ### `get_top_rated_movies` (source lines 88-110) -/

/-- Lines 97-104: probe the rating candidates in order, skipping a literal
`rating` column of object dtype. -/
def ratingFrom (t : Table) : List String → Option String
  | [] => none
  | c :: rest =>
    if hasCol t c then
      if c = "rating" && colIsObjectName t c then ratingFrom t rest
      else some c
    else ratingFrom t rest

def ratingColOf (t : Table) : Option String :=
  ratingFrom t ["IMDb Score", "IMDB Score", "imdb_score", "rating"]

/-- Line 106: restrict to `type == 'Movie'` when a `type` column exists. -/
def poolOf (t : Table) : List (List Value) :=
  match colIdx? t.cols "type" with
  | some ti => t.rows.filter (fun r => r.getD ti .null == Value.str "Movie")
  | none => t.rows

def keyAt (i : Nat) (r : List Value) : Value := r.getD i .null

/-- Strict relator behind `sort_values(ascending=False)`: is `a` ranked
strictly above `b`?  NaN ranks below everything (`na_position='last'`);
values of different kinds are incomparable. -/
def valGt : Value → Value → Bool
  | .num a, .num b => decide (b < a)
  | .num _, .null => true
  | .str a, .str b => strLtB b a
  | .str _, .null => true
  | _, _ => false

def insKey (i : Nat) (r : List Value) : List (List Value) → List (List Value)
  | [] => [r]
  | x :: xs => if valGt (keyAt i r) (keyAt i x) then r :: x :: xs else x :: insKey i r xs

/-- Model of `sort_values(by=col, ascending=False)` with NaN placed last. -/
def sortDesc (i : Nat) : List (List Value) → List (List Value)
  | [] => []
  | r :: rs => insKey i r (sortDesc i rs)

def get_top_rated_movies (t : Table) (n : Nat) : Table :=
  match ratingColOf t with
  | some c =>
    match colIdx? t.cols c with
    | some i => ⟨t.cols, (sortDesc i (poolOf t)).take n⟩
    | none => ⟨t.cols, []⟩
  | none => ⟨[], []⟩

/-! ### `get_year_counts` (source lines 112-121) -/

def valLt (a b : Value) : Bool := valGt b a

def insKeyAsc (x : Value × Nat) : List (Value × Nat) → List (Value × Nat)
  | [] => [x]
  | y :: ys => if valLt x.1 y.1 then x :: y :: ys else y :: insKeyAsc x ys

def sortKeyAsc : List (Value × Nat) → List (Value × Nat)
  | [] => []
  | x :: xs => insKeyAsc x (sortKeyAsc xs)

/-- Model of `df['release_year'].value_counts().sort_index()`: counts per non-null
year, ascending by year. -/
def get_year_counts (t : Table) : List (Value × Nat) :=
  match colIdx? t.cols "release_year" with
  | some i => sortKeyAsc (tally ((columnAt t i).filter (fun v => v != Value.null)))
  | none => []

theorem get_top_genres_sample :
    get_top_genres ⟨["listed_in"], [[.str "Drama, Co, Drama"]]⟩ 10
      = [("Drama", 2), ("Co", 1)] := by decide

theorem summary_stats_sample :
    summary_stats ⟨["type"], [[.str "Movie"]]⟩
      = .ok [("total_titles", .num 1), ("num_movies", .num 1), ("num_tv_shows", .num 0)] := by
  decide

/-! ## Helper lemmas -/

theorem lookupN_bump_self {α : Type} [DecidableEq α] (g : α) (acc : List (α × Nat)) :
    lookupN (bump g acc) g = lookupN acc g + 1 := by
  induction acc with
  | nil => simp [bump, lookupN]
  | cons p rest ih =>
    obtain ⟨h, k⟩ := p
    by_cases hg : h = g
    · subst hg
      simp [bump, lookupN]
    · simp [bump, lookupN, hg, ih]

theorem lookupN_bump_ne {α : Type} [DecidableEq α] (g g' : α) (acc : List (α × Nat))
    (hne : g' ≠ g) : lookupN (bump g acc) g' = lookupN acc g' := by
  have hne' : g ≠ g' := Ne.symm hne
  induction acc with
  | nil => simp [bump, lookupN, hne']
  | cons p rest ih =>
    obtain ⟨h, k⟩ := p
    by_cases hg : h = g
    · subst hg
      simp [bump, lookupN, hne']
    · by_cases hg' : h = g'
      · subst hg'
        simp [bump, lookupN, hg]
      · simp [bump, lookupN, hg, hg', ih]

theorem lookupN_foldl_bump {α : Type} [DecidableEq α] (l : List α)
    (acc : List (α × Nat)) (g : α) :
    lookupN (l.foldl (fun acc g => bump g acc) acc) g = lookupN acc g + occCount g l := by
  induction l generalizing acc with
  | nil => simp [occCount]
  | cons x xs ih =>
    rw [List.foldl_cons, ih]
    by_cases hx : x = g
    · subst hx
      rw [lookupN_bump_self]
      have hocc : occCount x (x :: xs) = occCount x xs + 1 := by
        simp [occCount, List.filter_cons]
      rw [hocc]
      omega
    · rw [lookupN_bump_ne x g acc (Ne.symm hx)]
      have hocc : occCount g (x :: xs) = occCount g xs := by
        have hb : (x == g) = false := beq_eq_false_iff_ne.mpr hx
        simp [occCount, List.filter_cons, hb]
      rw [hocc]

/-! ## Claims -/

/-- C1: the claim says `summary_stats` never raises when `release_year`
exists but is all-null after coercion.  The code violates this: on the
cleaned table whose single `release_year` value is null (coerced from
"abc"), `int(df['release_year'].min())` is `int(NaN)`, which raises
`ValueError`.  This theorem evaluates the embedded code at that input. -/
theorem c1_summary_stats_raises_on_all_null_year :
    summary_stats (clean_data ⟨["title", "release_year"], [[.str "B", .str "abc"]]⟩)
      = .err "ValueError: cannot convert float NaN to integer" := by decide

/-- C5: `get_top_genres` performs one-to-many occurrence expansion with
per-tag trimming: the tally gives every element its occurrence count
(first conjunct), and a single row with genre field "Drama, Comedy, Drama"
contributes 2 to "Drama" and 1 to "Comedy" (second conjunct). -/
theorem c5_genre_occurrence_expansion :
    (∀ (l : List String) (g : String), lookupN (tally l) g = occCount g l) ∧
    get_top_genres ⟨["listed_in"], [[.str "Drama, Comedy, Drama"]]⟩ 10
      = [("Drama", 2), ("Comedy", 1)] := by
  constructor
  · intro l g
    have := lookupN_foldl_bump l [] g
    simpa [tally, lookupN] using this
  · decide

theorem lookupS_append (a b : List (String × Value)) (k : String) :
    lookupS (a ++ b) k =
      match lookupS a k with
      | some v => some v
      | none => lookupS b k := by
  induction a with
  | nil => simp [lookupS]
  | cons p rest ih =>
    obtain ⟨k', v⟩ := p
    by_cases hk : k' = k
    · simp [lookupS, hk]
    · simp [lookupS, hk, ih]

theorem lookupS_none_of_keys (s : List (String × Value)) (k : String)
    (h : ∀ p ∈ s, p.1 ≠ k) : lookupS s k = none := by
  induction s with
  | nil => rfl
  | cons p rest ih =>
    obtain ⟨k', v⟩ := p
    have hk : k' ≠ k := h (k', v) (by simp)
    simp only [lookupS, if_neg hk]
    exact ih (fun q hq => h q (by simp [hq]))

theorem statsBase_keys (t : Table) :
    ∀ p ∈ statsBase t,
      p.1 = "total_titles" ∨ p.1 = "num_movies" ∨ p.1 = "num_tv_shows" := by
  intro p hp
  unfold statsBase at hp
  by_cases ht : hasCol t "type" = true
  · simp [ht] at hp
    rcases hp with h | h | h <;> simp [h]
  · simp [Bool.not_eq_true] at ht
    simp [ht] at hp
    simp [hp]

theorem yearPart_keys (t : Table) (ys : List (String × Value))
    (h : yearPart t = .ok ys) :
    ∀ p ∈ ys, p.1 = "earliest_year" ∨ p.1 = "latest_year" := by
  intro p hp
  unfold yearPart at h
  split at h
  · split at h
    · exact absurd h (by simp)
    · split at h
      · exact absurd h (by simp)
      · split at h
        · exact absurd h (by simp)
        · split at h
          · exact absurd h (by simp)
          · simp only [Res.ok.injEq] at h
            subst h
            simp at hp
            rcases hp with h | h <;> simp [h]
  · simp only [Res.ok.injEq] at h
    subst h
    simp at hp

theorem summary_ok_decomp (t : Table) (s : List (String × Value))
    (h : summary_stats t = .ok s) :
    ∃ ys is, yearPart t = .ok ys ∧ imdbPart t = .ok is ∧
      s = statsBase t ++ ys ++ is := by
  unfold summary_stats at h
  split at h
  · exact absurd h (by simp)
  next ys hy =>
    split at h
    · exact absurd h (by simp)
    next is hi =>
      simp only [Res.ok.injEq] at h
      exact ⟨ys, is, hy, hi, h.symm⟩

theorem imdbPart_some (t : Table) (c : String) (is : List (String × Value))
    (hc : imdbCandOf t = some c) (h : imdbPart t = .ok is) :
    ∃ m f, seriesMean (columnN t c) = .ok m ∧ pyFloat m = .ok f ∧
      is = [("average_imdb_score", f)] := by
  simp only [imdbPart, hc] at h
  split at h
  · exact absurd h (by simp)
  next m hm =>
    split at h
    · exact absurd h (by simp)
    next f hf =>
      simp only [Res.ok.injEq] at h
      exact ⟨m, f, hm, hf, h.symm⟩

theorem imdbPart_none (t : Table) (hc : imdbCandOf t = none) :
    imdbPart t = .ok [] := by
  unfold imdbPart
  rw [hc]

theorem seriesMean_all_null (vs : List Value) (h : ∀ v ∈ vs, v = .null) :
    seriesMean vs = .ok .null := by
  have hnn : vs.filter (fun v => v != Value.null) = [] := by
    rw [List.filter_eq_nil_iff]
    intro v hv
    simp [h v hv]
  simp [seriesMean, hnn]

/-- The `average_imdb_score` entry of a successful `summary_stats` result
is exactly the entry contributed by `imdbPart` (no earlier key collides). -/
theorem summary_avg_lookup (t : Table) (s : List (String × Value))
    (h : summary_stats t = .ok s) :
    ∃ is, imdbPart t = .ok is ∧
      lookupS s "average_imdb_score" = lookupS is "average_imdb_score" := by
  obtain ⟨ys, is, hy, hi, hs⟩ := summary_ok_decomp t s h
  refine ⟨is, hi, ?_⟩
  subst hs
  rw [List.append_assoc, lookupS_append]
  have h1 : lookupS (statsBase t) "average_imdb_score" = none := by
    apply lookupS_none_of_keys
    intro p hp
    rcases statsBase_keys t p hp with h | h | h <;> simp [h]
  rw [h1, lookupS_append]
  have h2 : lookupS ys "average_imdb_score" = none := by
    apply lookupS_none_of_keys
    intro p hp
    rcases yearPart_keys t ys hy p hp with h | h <;> simp [h]
  rw [h2]

/-- C8 counterexample: the claim says the `average_imdb_score` key is
present whenever an imdb-score column exists, even on a zero-row table.
But on a zero-row table that also has a `release_year` column,
`summary_stats` raises at `int(df['release_year'].min())` before ever
reaching the average computation, so no key (and no dict) is produced. -/
theorem c8_counterexample :
    hasCol ⟨["release_year", "imdb_score"], []⟩ "imdb_score" = true ∧
    summary_stats ⟨["release_year", "imdb_score"], []⟩
      = .err "ValueError: cannot convert float NaN to integer" := by decide

/-- C8 (amended): whenever `summary_stats` returns a stats dict, the
`average_imdb_score` key is present exactly when one of `IMDb Score`,
`IMDB Score`, `imdb_score` exists, regardless of the data; in particular it
is present with a null value when the chosen column is all-null (or the
table has no rows).  (The unamended claim fails only because a
`release_year` column can make `summary_stats` raise before returning.) -/
theorem c8_avg_key_presence (t : Table) (s : List (String × Value))
    (h : summary_stats t = .ok s) :
    ((imdbCandOf t).isSome = true → lookupS s "average_imdb_score" ≠ none) ∧
    (imdbCandOf t = none → lookupS s "average_imdb_score" = none) ∧
    (∀ c, imdbCandOf t = some c → (∀ v ∈ columnN t c, v = Value.null) →
      lookupS s "average_imdb_score" = some Value.null) := by
  obtain ⟨is, hi, hl⟩ := summary_avg_lookup t s h
  refine ⟨?_, ?_, ?_⟩
  · intro hsome
    obtain ⟨c, hc⟩ := Option.isSome_iff_exists.mp hsome
    obtain ⟨m, f, _, _, his⟩ := imdbPart_some t c is hc hi
    rw [hl, his]
    simp [lookupS]
  · intro hc
    rw [imdbPart_none t hc] at hi
    simp only [Res.ok.injEq] at hi
    rw [hl, ← hi]
    rfl
  · intro c hc hnull
    obtain ⟨m, f, hm, hf, his⟩ := imdbPart_some t c is hc hi
    rw [seriesMean_all_null _ hnull] at hm
    simp only [Res.ok.injEq] at hm
    subst hm
    simp only [pyFloat, Res.ok.injEq] at hf
    subst hf
    rw [hl, his]
    simp [lookupS]

/-- Witness for C8: a one-row table whose only column is an all-null
`imdb_score` gets an `average_imdb_score` entry whose value is null. -/
theorem c8_witness :
    lookupS [("total_titles", Value.num 1), ("average_imdb_score", Value.null)]
      "average_imdb_score" = some Value.null :=
  (c8_avg_key_presence ⟨["imdb_score"], [[.null]]⟩
      [("total_titles", Value.num 1), ("average_imdb_score", Value.null)]
      (by decide)).2.2 "imdb_score" (by decide) (by decide)

/-- C9: `summary_stats` probes only `IMDb Score` / `IMDB Score` /
`imdb_score` and never a column literally named `rating` (first conjunct:
when none of the three candidates exists, a successful result has no
`average_imdb_score` key, whatever other columns exist); whereas
`get_top_rated_movies` also accepts a numeric `rating` column.  On the
concrete table whose only numeric rating-like column is `rating`,
`get_top_rated_movies` ranks by it while `summary_stats` reports no
average (remaining conjuncts). -/
theorem c9_candidate_lists_differ :
    (∀ (t : Table) (s : List (String × Value)), imdbCandOf t = none →
      summary_stats t = .ok s → lookupS s "average_imdb_score" = none) ∧
    ratingColOf ⟨["title", "rating"], [[.str "A", .num 8], [.str "B", .num 9]]⟩
      = some "rating" ∧
    summary_stats ⟨["title", "rating"], [[.str "A", .num 8], [.str "B", .num 9]]⟩
      = .ok [("total_titles", Value.num 2)] ∧
    (get_top_rated_movies ⟨["title", "rating"], [[.str "A", .num 8], [.str "B", .num 9]]⟩ 2).rows
      = [[.str "B", .num 9], [.str "A", .num 8]] := by
  refine ⟨?_, by decide, by decide, by decide⟩
  intro t s hc h
  obtain ⟨is, hi, hl⟩ := summary_avg_lookup t s h
  rw [imdbPart_none t hc] at hi
  simp only [Res.ok.injEq] at hi
  rw [hl, ← hi]
  rfl

/-- Witness for C9: the universally quantified conjunct applied at the
concrete two-row table with only a numeric `rating` column. -/
theorem c9_witness :
    lookupS [("total_titles", Value.num 2)] "average_imdb_score" = none :=
  c9_candidate_lists_differ.1
    ⟨["title", "rating"], [[.str "A", .num 8], [.str "B", .num 9]]⟩
    [("total_titles", Value.num 2)] (by decide) (by decide)

/-- C3 counterexample: the claim says every zero-row table makes
`summary_stats` return exactly the `total_titles` entry.  A zero-row table
that still has a `type` column also gets the two zero-valued counters. -/
theorem c3_counterexample :
    (⟨["type"], []⟩ : Table).rows = [] ∧
    summary_stats ⟨["type"], []⟩
      = .ok [("total_titles", .num 0), ("num_movies", .num 0), ("num_tv_shows", .num 0)] ∧
    summary_stats ⟨["type"], []⟩ ≠ .ok [("total_titles", .num 0)] := by decide

/-- C3 (amended): on every zero-row table the three aggregations return
empty results; `summary_stats` returns exactly the `total_titles = 0`
entry provided none of the probed optional columns is present (a present
`type` column adds zero-valued counters, and a present `release_year`
column even makes it raise at `int(NaN)`). -/
theorem c3_empty_table (t : Table) (n : Nat) (hrows : t.rows = []) :
    get_top_genres t n = [] ∧
    (get_top_rated_movies t n).rows = [] ∧
    get_year_counts t = [] ∧
    (hasCol t "type" = false → hasCol t "release_year" = false →
      imdbCandOf t = none → summary_stats t = .ok [("total_titles", Value.num 0)]) := by
  refine ⟨?_, ?_, ?_, ?_⟩
  · cases hg : genreColOf t with
    | none => simp [get_top_genres, hg]
    | some c =>
      cases hi : colIdx? t.cols c with
      | none => simp [get_top_genres, hg, columnN, hi, tally, sortCntDesc]
      | some i =>
        simp [get_top_genres, hg, columnN, hi, columnAt, hrows, tally, sortCntDesc]
  · cases hr : ratingColOf t with
    | none => simp [get_top_rated_movies, hr]
    | some c =>
      cases hi : colIdx? t.cols c with
      | none => simp [get_top_rated_movies, hr, hi]
      | some i =>
        have hp : poolOf t = [] := by
          unfold poolOf
          cases ht : colIdx? t.cols "type" with
          | none => exact hrows
          | some ti => rw [hrows]; rfl
        simp [get_top_rated_movies, hr, hi, hp, sortDesc]
  · cases hi : colIdx? t.cols "release_year" with
    | none => simp [get_year_counts, hi]
    | some i => simp [get_year_counts, hi, columnAt, hrows, tally, sortKeyAsc]
  · intro htype hyear himdb
    have hy : yearPart t = .ok [] := by simp [yearPart, hyear]
    have hi : imdbPart t = .ok [] := imdbPart_none t himdb
    unfold summary_stats
    rw [hy, hi]
    simp [statsBase, htype, hrows]

/-- Witness for C3 (amended): the fully empty table. -/
theorem c3_witness :
    get_top_genres ⟨[], []⟩ 5 = [] ∧
    (get_top_rated_movies ⟨[], []⟩ 5).rows = [] ∧
    get_year_counts ⟨[], []⟩ = [] ∧
    summary_stats ⟨[], []⟩ = .ok [("total_titles", Value.num 0)] := by
  have h := c3_empty_table ⟨[], []⟩ 5 rfl
  exact ⟨h.1, h.2.1, h.2.2.1, h.2.2.2 (by decide) (by decide) (by decide)⟩

/-- C4 counterexample: the claim says that with no usable *numeric* rating
candidate at all, the result is empty.  But the numeric check is applied
only to the literal `rating` column: a table whose only candidate is a
string-valued `imdb_score` column still gets ranked (lexicographically),
returning a non-empty result. -/
theorem c4_counterexample :
    colIdx? ["title", "imdb_score"] "IMDb Score" = none ∧
    colIdx? ["title", "imdb_score"] "IMDB Score" = none ∧
    colIdx? ["title", "imdb_score"] "rating" = none ∧
    colIsObjectName ⟨["title", "imdb_score"], [[.str "A", .str "hi"], [.str "B", .str "zz"]]⟩
      "imdb_score" = true ∧
    (get_top_rated_movies ⟨["title", "imdb_score"], [[.str "A", .str "hi"], [.str "B", .str "zz"]]⟩
      10).rows ≠ [] := by decide

/-- C4 (amended): `get_top_rated_movies` skips a literal `rating` column of
object dtype and prefers `imdb_score` when present; it returns the empty
frame exactly when no candidate is *selected*, i.e. when the three
imdb-named candidates are absent and `rating` is absent or non-numeric.
The dtype check applies only to the literal `rating` column, so a
non-numeric `imdb_score` is still selected. -/
theorem c4_rating_column_selection (t : Table) (n : Nat)
    (h1 : colIdx? t.cols "IMDb Score" = none)
    (h2 : colIdx? t.cols "IMDB Score" = none) :
    ((colIdx? t.cols "imdb_score").isSome = true → ratingColOf t = some "imdb_score") ∧
    (colIdx? t.cols "imdb_score" = none →
      (colIdx? t.cols "rating" = none ∨ colIsObjectName t "rating" = true) →
      ratingColOf t = none ∧ get_top_rated_movies t n = ⟨[], []⟩) := by
  constructor
  · intro h3
    simp [ratingColOf, ratingFrom, hasCol, h1, h2, h3]
  · intro h3 h4
    have hnone : ratingColOf t = none := by
      rcases h4 with h4 | h4
      · simp [ratingColOf, ratingFrom, hasCol, h1, h2, h3, h4]
      · have hr : (colIdx? t.cols "rating").isSome = true := by
          unfold colIsObjectName at h4
          cases hri : colIdx? t.cols "rating" with
          | none => rw [hri] at h4; exact absurd h4 (by simp)
          | some i => rfl
        simp [ratingColOf, ratingFrom, hasCol, h1, h2, h3, hr, h4]
    exact ⟨hnone, by simp [get_top_rated_movies, hnone]⟩

/-- Witness for C4 (amended): a numeric `imdb_score` column is selected. -/
theorem c4_witness :
    ratingColOf ⟨["imdb_score"], [[.num 5]]⟩ = some "imdb_score" :=
  (c4_rating_column_selection ⟨["imdb_score"], [[.num 5]]⟩ 1
    (by decide) (by decide)).1 (by decide)

theorem getD_set_ne (l : List Value) (v : Value) :
    ∀ i j, i ≠ j → (l.set i v).getD j .null = l.getD j .null := by
  induction l with
  | nil => intro i j _; simp
  | cons a as ih =>
    intro i j hne
    cases i with
    | zero =>
      cases j with
      | zero => exact absurd rfl hne
      | succ j => simp
    | succ i =>
      cases j with
      | zero => simp
      | succ j =>
        simp only [List.set_cons_succ, List.getD_cons_succ]
        exact ih i j (fun hh => hne (by rw [hh]))

theorem getD_set_coerce (r : List Value) :
    ∀ i, (r.set i (coerceValue (r.getD i .null))).getD i .null
      = coerceValue (r.getD i .null) := by
  induction r with
  | nil => intro i; simp [coerceValue]
  | cons a as ih =>
    intro i
    cases i with
    | zero => simp
    | succ i =>
      simp only [List.getD_cons_succ, List.set_cons_succ]
      exact ih i

theorem set_getD_self (r : List Value) :
    ∀ i, r.set i (r.getD i .null) = r := by
  induction r with
  | nil => intro i; simp
  | cons a as ih =>
    intro i
    cases i with
    | zero => simp
    | succ i =>
      simp only [List.getD_cons_succ, List.set_cons_succ]
      rw [ih i]

/-- C6: the `release_year` coercion step is best-effort: it preserves the
row count, touches no other column, maps each year value through
`pd.to_numeric(..., errors='coerce')` (a total function, so no exception),
turns every unparseable string into null, and never produces a string. -/
theorem c6_year_coercion_best_effort (t : Table) (yi : Nat)
    (h : colIdx? t.cols "release_year" = some yi) :
    (coerceYears t).rows.length = t.rows.length ∧
    (∀ k j, j ≠ yi → ((coerceYears t).rows.getD k []).getD j .null
        = (t.rows.getD k []).getD j .null) ∧
    (∀ k, ((coerceYears t).rows.getD k []).getD yi .null
        = coerceValue ((t.rows.getD k []).getD yi .null)) ∧
    (∀ s, parseRat? s = none → coerceValue (.str s) = .null) ∧
    (∀ v, coerceValue v = .null ∨ ∃ q, coerceValue v = .num q) := by
  have hdef : (coerceYears t).rows
      = t.rows.map (fun r => r.set yi (coerceValue (r.getD yi .null))) := by
    simp [coerceYears, h]
  refine ⟨by rw [hdef]; simp, ?_, ?_, ?_, ?_⟩
  · intro k j hj
    rw [hdef]
    simp only [List.getD_eq_getElem?_getD, List.getElem?_map]
    cases hk : t.rows[k]? with
    | none => simp
    | some r => simpa using getD_set_ne r _ yi j (fun hh => hj hh.symm)
  · intro k
    rw [hdef]
    simp only [List.getD_eq_getElem?_getD, List.getElem?_map]
    cases hk : t.rows[k]? with
    | none => simp [coerceValue]
    | some r => simpa using getD_set_coerce r yi
  · intro s hs
    simp [coerceValue, hs]
  · intro v
    cases v with
    | null => exact Or.inl rfl
    | num q => exact Or.inr ⟨q, rfl⟩
    | str s =>
      cases hp : parseRat? s with
      | none => exact Or.inl (by simp [coerceValue, hp])
      | some q => exact Or.inr ⟨q, by simp [coerceValue, hp]⟩

/-- Witness for C6: the coercion step applied to a one-row table whose
`release_year` value "abc" fails to parse. -/
theorem c6_witness :
    (coerceYears ⟨["release_year"], [[.str "abc"]]⟩).rows.length = 1 ∧
    coerceValue (.str "abc") = .null := by
  have h := c6_year_coercion_best_effort ⟨["release_year"], [[.str "abc"]]⟩ 0 (by decide)
  exact ⟨h.1.trans (by decide), h.2.2.2.1 "abc" (by decide)⟩

theorem charListLt_asymm (a : List Char) :
    ∀ b, charListLt a b = true → charListLt b a = false := by
  induction a with
  | nil =>
    intro b h
    cases b with
    | nil => simp [charListLt] at h
    | cons c cs => simp [charListLt]
  | cons x xs ih =>
    intro b h
    cases b with
    | nil => simp [charListLt] at h
    | cons y ys =>
      simp only [charListLt] at h ⊢
      by_cases h1 : x.toNat < y.toNat
      · have h2 : ¬ y.toNat < x.toNat := by omega
        simp [h1, h2]
      · by_cases h2 : y.toNat < x.toNat
        · simp [h1, h2] at h
        · simp only [if_neg h1, if_neg h2] at h
          simp only [if_neg h2, if_neg h1]
          exact ih ys h

theorem charListLt_trans (a : List Char) :
    ∀ b c, charListLt a b = true → charListLt b c = true → charListLt a c = true := by
  induction a with
  | nil =>
    intro b c hab hbc
    cases c with
    | nil => cases b <;> simp [charListLt] at hbc
    | cons z zs => simp [charListLt]
  | cons x xs ih =>
    intro b c hab hbc
    cases b with
    | nil => simp [charListLt] at hab
    | cons y ys =>
      cases c with
      | nil => simp [charListLt] at hbc
      | cons z zs =>
        simp only [charListLt] at hab hbc ⊢
        by_cases h1 : x.toNat < y.toNat
        · by_cases h2 : y.toNat < z.toNat
          · simp [show x.toNat < z.toNat by omega]
          · by_cases h3 : z.toNat < y.toNat
            · simp [h2, h3] at hbc
            · simp [show x.toNat < z.toNat by omega]
        · by_cases h3 : y.toNat < x.toNat
          · simp [h1, h3] at hab
          · by_cases h2 : y.toNat < z.toNat
            · simp [show x.toNat < z.toNat by omega]
            · by_cases h4 : z.toNat < y.toNat
              · simp [h2, h4] at hbc
              · have hxz1 : ¬ x.toNat < z.toNat := by omega
                have hxz2 : ¬ z.toNat < x.toNat := by omega
                simp [h1, h3] at hab
                simp [h2, h4] at hbc
                simp [hxz1, hxz2]
                exact ih ys zs hab hbc

theorem valGt_asymm (a b : Value) (h : valGt a b = true) : valGt b a = false := by
  cases a <;> cases b <;> simp [valGt, strLtB] at h ⊢
  · exact charListLt_asymm _ _ h
  · exact le_of_lt h

theorem valGt_trans (a b c : Value) (hab : valGt a b = true) (hbc : valGt b c = true) :
    valGt a c = true := by
  cases a <;> cases b <;> cases c <;> simp [valGt, strLtB] at hab hbc ⊢
  · exact charListLt_trans _ _ _ hbc hab
  · exact lt_trans hbc hab

theorem valGt_null_right (a : Value) (h : a ≠ .null) : valGt a .null = true := by
  cases a with
  | null => exact absurd rfl h
  | str s => rfl
  | num q => rfl

theorem insKey_perm (i : Nat) (r : List Value) (l : List (List Value)) :
    (insKey i r l).Perm (r :: l) := by
  induction l with
  | nil => exact List.Perm.refl _
  | cons x xs ih =>
    simp only [insKey]
    by_cases hc : valGt (keyAt i r) (keyAt i x) = true
    · rw [if_pos hc]
    · rw [if_neg hc]
      exact (ih.cons x).trans (List.Perm.swap r x xs)

theorem sortDesc_perm (i : Nat) (l : List (List Value)) : (sortDesc i l).Perm l := by
  induction l with
  | nil => exact List.Perm.refl _
  | cons x xs ih => exact (insKey_perm i x (sortDesc i xs)).trans (ih.cons x)

theorem pairwise_insKey (i : Nat) (r : List Value) (l : List (List Value))
    (h : l.Pairwise (fun a b => valGt (keyAt i b) (keyAt i a) = false)) :
    (insKey i r l).Pairwise (fun a b => valGt (keyAt i b) (keyAt i a) = false) := by
  induction l with
  | nil => simp [insKey]
  | cons x xs ih =>
    rcases List.pairwise_cons.mp h with ⟨hx, hxs⟩
    simp only [insKey]
    by_cases hc : valGt (keyAt i r) (keyAt i x) = true
    · rw [if_pos hc]
      refine List.pairwise_cons.mpr ⟨?_, h⟩
      intro y hy
      rcases List.mem_cons.mp hy with rfl | hy
      · exact valGt_asymm _ _ hc
      · by_contra hcon
        have hyr : valGt (keyAt i y) (keyAt i r) = true := by
          revert hcon
          cases valGt (keyAt i y) (keyAt i r) <;> simp
        have hyx : valGt (keyAt i y) (keyAt i x) = true := valGt_trans _ _ _ hyr hc
        rw [hx y hy] at hyx
        exact Bool.false_ne_true hyx
    · rw [if_neg hc]
      refine List.pairwise_cons.mpr ⟨?_, ih hxs⟩
      intro y hy
      rcases List.mem_cons.mp ((insKey_perm i r xs).mem_iff.mp hy) with rfl | hy
      · exact Bool.eq_false_iff.mpr hc
      · exact hx y hy

theorem sortDesc_pairwise (i : Nat) (l : List (List Value)) :
    (sortDesc i l).Pairwise (fun a b => valGt (keyAt i b) (keyAt i a) = false) := by
  induction l with
  | nil => simp [sortDesc]
  | cons x xs ih => exact pairwise_insKey i x (sortDesc i xs) ih

theorem poolOf_subset (t : Table) : ∀ r ∈ poolOf t, r ∈ t.rows := by
  unfold poolOf
  intro r hr
  split at hr
  · exact (List.mem_filter.mp hr).1
  · exact hr

/-- C7: when a usable rating column is selected, `get_top_rated_movies`
keeps all original columns, returns only rows of the input table, restricts
to `type = "Movie"` rows when a `type` column exists (otherwise draws from
the whole table, returning `min n total` rows), and its output is sorted
descending by the selected rating column (no later row ranks strictly
above an earlier one). -/
theorem c7_top_rated_movies_shape (t : Table) (n : Nat) (c : String) (i : Nat)
    (hc : ratingColOf t = some c) (hi : colIdx? t.cols c = some i) :
    (get_top_rated_movies t n).cols = t.cols ∧
    (∀ r ∈ (get_top_rated_movies t n).rows, r ∈ t.rows) ∧
    (∀ ti, colIdx? t.cols "type" = some ti →
      ∀ r ∈ (get_top_rated_movies t n).rows, r.getD ti .null = .str "Movie") ∧
    (colIdx? t.cols "type" = none →
      (get_top_rated_movies t n).rows.length = min n t.rows.length) ∧
    (get_top_rated_movies t n).rows.Pairwise
      (fun a b => valGt (keyAt i b) (keyAt i a) = false) := by
  have hdef : get_top_rated_movies t n = ⟨t.cols, (sortDesc i (poolOf t)).take n⟩ := by
    simp [get_top_rated_movies, hc, hi]
  have hmem : ∀ r ∈ (get_top_rated_movies t n).rows, r ∈ poolOf t := by
    intro r hr
    rw [hdef] at hr
    exact (sortDesc_perm i (poolOf t)).mem_iff.mp (List.mem_of_mem_take hr)
  refine ⟨by rw [hdef], ?_, ?_, ?_, ?_⟩
  · intro r hr
    exact poolOf_subset t r (hmem r hr)
  · intro ti hti r hr
    have hp := hmem r hr
    unfold poolOf at hp
    rw [hti] at hp
    have := (List.mem_filter.mp hp).2
    exact eq_of_beq this
  · intro hnone
    rw [hdef]
    have hpool : poolOf t = t.rows := by unfold poolOf; rw [hnone]
    simp [List.length_take, hpool, (sortDesc_perm i t.rows).length_eq]
  · rw [hdef]
    exact (sortDesc_pairwise i (poolOf t)).sublist (List.take_sublist n _)

/-- Witness for C7 at a concrete three-row table with a `type` column. -/
theorem c7_witness :
    (get_top_rated_movies
      ⟨["title", "type", "imdb_score"],
       [[.str "A", .str "Movie", .num 7], [.str "B", .str "TV Show", .num 9],
        [.str "C", .str "Movie", .num 8]]⟩ 2).cols
      = ["title", "type", "imdb_score"] :=
  (c7_top_rated_movies_shape
    ⟨["title", "type", "imdb_score"],
     [[.str "A", .str "Movie", .num 7], [.str "B", .str "TV Show", .num 9],
      [.str "C", .str "Movie", .num 8]]⟩ 2 "imdb_score" 2
    (by decide) (by decide)).1

/-- C10: rows whose selected rating is null stay in the ranking pool but
sort after every non-null row (first conjunct: in the sorted pool, once a
null-rated row appears every later row is null-rated too); hence a
null-rated row reaches the returned top `n` only when fewer than `n` pool
rows have a non-null rating (second conjunct). -/
theorem c10_null_ratings_sort_last (t : Table) (n : Nat) (c : String) (i : Nat)
    (hc : ratingColOf t = some c) (hi : colIdx? t.cols c = some i) :
    (sortDesc i (poolOf t)).Pairwise
      (fun a b => keyAt i a = Value.null → keyAt i b = Value.null) ∧
    (∀ r ∈ (get_top_rated_movies t n).rows, keyAt i r = Value.null →
      (poolOf t).countP (fun x => keyAt i x != Value.null) < n) := by
  have hpair : (sortDesc i (poolOf t)).Pairwise
      (fun a b => keyAt i a = Value.null → keyAt i b = Value.null) := by
    refine (sortDesc_pairwise i (poolOf t)).imp ?_
    intro a b hab hnull
    by_contra hbnull
    have : valGt (keyAt i b) (keyAt i a) = true := by
      rw [hnull]
      exact valGt_null_right _ hbnull
    rw [hab] at this
    exact Bool.false_ne_true this
  refine ⟨hpair, ?_⟩
  intro r hr hnull
  have hdef : (get_top_rated_movies t n).rows = (sortDesc i (poolOf t)).take n := by
    simp [get_top_rated_movies, hc, hi]
  rw [hdef] at hr
  obtain ⟨j, hjlen, hgetr⟩ := List.getElem_of_mem hr
  have hjn : j < n := lt_of_lt_of_le hjlen (by simp [List.length_take])
  have hjL : j < (sortDesc i (poolOf t)).length :=
    lt_of_lt_of_le hjlen (by simp [List.length_take])
  have hgetL : (sortDesc i (poolOf t))[j] = r := by
    rw [← hgetr]
    exact (List.getElem_take _).symm
  have hsplit : sortDesc i (poolOf t)
      = (sortDesc i (poolOf t)).take j ++ r :: (sortDesc i (poolOf t)).drop (j + 1) := by
    rw [← hgetL]
    rw [← List.drop_eq_getElem_cons hjL]
    exact (List.take_append_drop j _).symm
  have hcount : (sortDesc i (poolOf t)).countP (fun x => keyAt i x != Value.null) ≤ j := by
    rw [hsplit, List.countP_append]
    have hdropzero :
        (r :: (sortDesc i (poolOf t)).drop (j + 1)).countP
          (fun x => keyAt i x != Value.null) = 0 := by
      rw [List.countP_eq_zero]
      intro a ha
      have hanull : keyAt i a = Value.null := by
        rcases List.mem_cons.mp ha with rfl | ha
        · exact hnull
        · have hpair2 := hsplit ▸ hpair
          have := (List.pairwise_append.mp hpair2).2.1
          exact (List.pairwise_cons.mp this).1 a ha hnull
      simp [hanull]
    rw [hdropzero]
    have := List.countP_le_length (l := (sortDesc i (poolOf t)).take j)
      (p := fun x => keyAt i x != Value.null)
    calc (List.take j (sortDesc i (poolOf t))).countP (fun x => keyAt i x != Value.null) + 0
        ≤ (List.take j (sortDesc i (poolOf t))).length := by omega
      _ ≤ j := by simp [List.length_take]
  have hperm := (sortDesc_perm i (poolOf t)).countP_eq (fun x => keyAt i x != Value.null)
  omega

/-- Witness for C10: a two-row pool with one null rating, `n = 3`. -/
theorem c10_witness :
    (poolOf ⟨["title", "imdb_score"], [[.str "A", .num 5], [.str "B", .null]]⟩).countP
      (fun x => keyAt 1 x != Value.null) < 3 :=
  (c10_null_ratings_sort_last
    ⟨["title", "imdb_score"], [[.str "A", .num 5], [.str "B", .null]]⟩
    3 "imdb_score" 1 (by decide) (by decide)).2 [.str "B", .null] (by decide) (by decide)

theorem dropWhile_head_false (p : Char → Bool) (l : List Char) :
    ∀ c, (l.dropWhile p).head? = some c → p c = false := by
  induction l with
  | nil => intro c h; simp at h
  | cons a as ih =>
    intro c h
    by_cases hp : p a
    · rw [List.dropWhile_cons_of_pos hp] at h
      exact ih c h
    · rw [List.dropWhile_cons_of_neg hp] at h
      simp only [List.head?_cons, Option.some.injEq] at h
      subst h
      exact Bool.eq_false_iff.mpr hp

theorem dropWhile_eq_self_of_head (p : Char → Bool) (l : List Char)
    (h : ∀ c, l.head? = some c → p c = false) : l.dropWhile p = l := by
  cases l with
  | nil => rfl
  | cons a as =>
    have ha : p a = false := h a rfl
    rw [List.dropWhile_cons_of_neg (by simp [ha])]

theorem dropWhile_self (p : Char → Bool) (l : List Char) :
    (l.dropWhile p).dropWhile p = l.dropWhile p :=
  dropWhile_eq_self_of_head p _ (dropWhile_head_false p l)

theorem getLast?_dropWhile (p : Char → Bool) (l : List Char)
    (h : l.dropWhile p ≠ []) : (l.dropWhile p).getLast? = l.getLast? := by
  induction l with
  | nil => exact absurd rfl h
  | cons a as ih =>
    by_cases hp : p a
    · rw [List.dropWhile_cons_of_pos hp] at h ⊢
      have hne : as ≠ [] := by
        intro he
        rw [he] at h
        exact h rfl
      rw [ih h]
      cases as with
      | nil => exact absurd rfl hne
      | cons b bs => rw [List.getLast?_cons_cons]
    · rw [List.dropWhile_cons_of_neg hp]

theorem pyStripList_idem (l : List Char) :
    pyStripList (pyStripList l) = pyStripList l := by
  have h1 : (pyStripList l).dropWhile wsp = pyStripList l := by
    apply dropWhile_eq_self_of_head
    intro c hc
    unfold pyStripList at hc
    rw [List.head?_reverse] at hc
    have hBne : (l.dropWhile wsp).reverse.dropWhile wsp ≠ [] := by
      intro he
      rw [he] at hc
      simp at hc
    rw [getLast?_dropWhile wsp _ hBne, List.getLast?_reverse] at hc
    exact dropWhile_head_false wsp l c hc
  show ((((pyStripList l).dropWhile wsp).reverse.dropWhile wsp).reverse) = pyStripList l
  rw [h1]
  unfold pyStripList
  rw [List.reverse_reverse, dropWhile_self]

theorem pyStrip_idem (s : String) : pyStrip (pyStrip s) = pyStrip s := by
  show String.mk (pyStripList (pyStripList s.toList)) = String.mk (pyStripList s.toList)
  rw [pyStripList_idem]

theorem stripValue_idem (v : Value) : stripValue (stripValue v) = stripValue v := by
  cases v with
  | null => rfl
  | num q => rfl
  | str s =>
    show Value.str (pyStrip (pyStrip s)) = Value.str (pyStrip s)
    rw [pyStrip_idem]

theorem coerceValue_idem (v : Value) : coerceValue (coerceValue v) = coerceValue v := by
  cases v with
  | null => rfl
  | num q => rfl
  | str s =>
    cases hp : parseRat? s with
    | none => simp [coerceValue, hp]
    | some q => simp [coerceValue, hp]

theorem coerceValue_not_str (v : Value) : (coerceValue v).isStr = false := by
  cases v with
  | null => rfl
  | num q => rfl
  | str s =>
    cases hp : parseRat? s with
    | none => simp [coerceValue, hp, Value.isStr]
    | some q => simp [coerceValue, hp, Value.isStr]

theorem mem_dedupAux (a : List Value) :
    ∀ (l : List (List Value)) (seen : List (List Value)),
      a ∈ dedupAux seen l ↔ a ∈ l ∧ a ∉ seen := by
  intro l
  induction l with
  | nil => intro seen; simp [dedupAux]
  | cons r rs ih =>
    intro seen
    simp only [dedupAux]
    by_cases hr : r ∈ seen
    · rw [if_pos hr, ih]
      constructor
      · rintro ⟨h1, h2⟩
        exact ⟨List.mem_cons_of_mem r h1, h2⟩
      · rintro ⟨h1, h2⟩
        rcases List.mem_cons.mp h1 with rfl | h1
        · exact absurd hr h2
        · exact ⟨h1, h2⟩
    · rw [if_neg hr]
      constructor
      · intro hmem
        rcases List.mem_cons.mp hmem with rfl | hmem
        · exact ⟨List.mem_cons_self _ _, hr⟩
        · obtain ⟨h1, h2⟩ := (ih _).mp hmem
          exact ⟨List.mem_cons_of_mem r h1,
            fun hs => h2 (List.mem_cons_of_mem r hs)⟩
      · rintro ⟨h1, h2⟩
        rcases List.mem_cons.mp h1 with rfl | h1
        · exact List.mem_cons_self _ _
        · by_cases har : a = r
          · subst har
            exact List.mem_cons_self _ _
          · refine List.mem_cons_of_mem r ((ih _).mpr ⟨h1, fun hs => ?_⟩)
            rcases List.mem_cons.mp hs with h | h
            · exact har h
            · exact h2 h

theorem dedupAux_nodup :
    ∀ (l seen : List (List Value)), (dedupAux seen l).Nodup := by
  intro l
  induction l with
  | nil => intro seen; simp [dedupAux]
  | cons r rs ih =>
    intro seen
    simp only [dedupAux]
    by_cases hr : r ∈ seen
    · rw [if_pos hr]
      exact ih seen
    · rw [if_neg hr]
      refine List.nodup_cons.mpr ⟨?_, ih _⟩
      intro hmem
      exact ((mem_dedupAux r rs _).mp hmem).2 (List.mem_cons_self r seen)

theorem dedupAux_eq_self :
    ∀ (l seen : List (List Value)), l.Nodup → (∀ a ∈ l, a ∉ seen) →
      dedupAux seen l = l := by
  intro l
  induction l with
  | nil => intro seen _ _; rfl
  | cons r rs ih =>
    intro seen hnd hs
    have hr : r ∉ seen := hs r (List.mem_cons_self _ _)
    simp only [dedupAux, if_neg hr]
    congr 1
    refine ih (r :: seen) (List.nodup_cons.mp hnd).2 ?_
    intro a ha hmem
    rcases List.mem_cons.mp hmem with rfl | hmem
    · exact (List.nodup_cons.mp hnd).1 ha
    · exact hs a (List.mem_cons_of_mem r ha) hmem

theorem dedupAux_idem (l : List (List Value)) :
    dedupAux [] (dedupAux [] l) = dedupAux [] l :=
  dedupAux_eq_self _ [] (dedupAux_nodup l []) (by simp)

theorem getD_lt (l : List Value) (n : Nat) (h : n < l.length) :
    l.getD n .null = l[n] := by
  rw [List.getD_eq_getElem?_getD, List.getElem?_eq_getElem h]
  rfl

theorem getD_ge (l : List Value) (n : Nat) (h : l.length ≤ n) :
    l.getD n .null = .null := by
  rw [List.getD_eq_getElem?_getD, List.getElem?_eq_none h]
  rfl

theorem getD_set_lt (l : List Value) (v : Value) :
    ∀ i, i < l.length → (l.set i v).getD i .null = v := by
  induction l with
  | nil => intro i h; simp at h
  | cons a as ih =>
    intro i h
    cases i with
    | zero => simp
    | succ i =>
      simp only [List.set_cons_succ, List.getD_cons_succ]
      exact ih i (by simpa using h)

theorem colIdx?_spec (c : String) :
    ∀ (cols : List String) (i : Nat), colIdx? cols c = some i →
      ∃ h : i < cols.length, cols[i] = c := by
  intro cols
  induction cols with
  | nil => intro i h; simp [colIdx?] at h
  | cons c' rest ih =>
    intro i h
    simp only [colIdx?] at h
    by_cases hc : c' = c
    · rw [if_pos hc] at h
      simp only [Option.some.injEq] at h
      subst h
      exact ⟨by simp, hc⟩
    · rw [if_neg hc] at h
      cases hj : colIdx? rest c with
      | none => rw [hj] at h; simp at h
      | some j =>
        rw [hj] at h
        simp at h
        subst h
        obtain ⟨hlt, hget⟩ := ih j hj
        exact ⟨by simpa using Nat.succ_lt_succ hlt, by simpa using hget⟩

/-- A table is tidy when its rows are aligned with its columns and every
value is a fixed point of the trimming, title-filtering and year-coercion
steps.  `clean_data` always produces a tidy table, and on tidy tables
`clean_data` degenerates to plain deduplication. -/
structure Tidy (t : Table) : Prop where
  len_eq : ∀ r ∈ t.rows, r.length = t.cols.length
  obj_fixed : ∀ i, colIsObject t i = true →
    ∀ r ∈ t.rows, stripValue (r.getD i .null) = r.getD i .null
  title_ok : ∀ ti, colIdx? t.cols "title" = some ti →
    ∀ r ∈ t.rows, (r.getD ti .null != Value.null) = true
  year_ok : ∀ yi, colIdx? t.cols "release_year" = some yi →
    ∀ r ∈ t.rows, coerceValue (r.getD yi .null) = r.getD yi .null

theorem filterTitle_cols (t : Table) : (filterTitle t).cols = t.cols := by
  unfold filterTitle
  split <;> rfl

theorem coerceYears_cols (t : Table) : (coerceYears t).cols = t.cols := by
  unfold coerceYears
  split <;> rfl

theorem clean_data_cols (t : Table) : (clean_data t).cols = t.cols := by
  unfold clean_data
  rw [coerceYears_cols, filterTitle_cols]
  rfl

theorem stripTable_eq_self (t : Table)
    (hlen : ∀ r ∈ t.rows, r.length = t.cols.length)
    (hobj : ∀ i, colIsObject t i = true →
      ∀ r ∈ t.rows, stripValue (r.getD i .null) = r.getD i .null) :
    stripTable t = t := by
  unfold stripTable
  cases t with
  | mk cols rows =>
    refine congrArg (Table.mk cols) ?_
    rw [List.map_congr_left ?_, List.map_id]
    intro r hr
    have hrl : r.length = cols.length := hlen r hr
    apply List.ext_getElem
    · simp [stripRow, hrl]
    · intro k h1 h2
      simp only [stripRow, List.getElem_map, List.getElem_range, id]
      have hget : r.getD k .null = r[k] := getD_lt r k h2
      by_cases hobjk : colIsObject ⟨cols, rows⟩ k = true
      · rw [if_pos hobjk, hobj k hobjk r hr, hget]
      · rw [if_neg hobjk, hget]

theorem filterTitle_eq_self (t : Table)
    (h : ∀ ti, colIdx? t.cols "title" = some ti →
      ∀ r ∈ t.rows, (r.getD ti .null != Value.null) = true) :
    filterTitle t = t := by
  unfold filterTitle
  cases hti : colIdx? t.cols "title" with
  | none => rfl
  | some ti =>
    cases t with
    | mk cols rows =>
      refine congrArg (Table.mk cols) ?_
      exact List.filter_eq_self.mpr (h ti hti)

theorem coerceYears_eq_self (t : Table)
    (h : ∀ yi, colIdx? t.cols "release_year" = some yi →
      ∀ r ∈ t.rows, coerceValue (r.getD yi .null) = r.getD yi .null) :
    coerceYears t = t := by
  unfold coerceYears
  cases hyi : colIdx? t.cols "release_year" with
  | none => rfl
  | some yi =>
    cases t with
    | mk cols rows =>
      refine congrArg (Table.mk cols) ?_
      rw [List.map_congr_left ?_, List.map_id]
      intro r hr
      rw [h yi hyi r hr, set_getD_self]
      rfl

theorem dedupTable_sub (t : Table) : ∀ r ∈ (dedupTable t).rows, r ∈ t.rows := by
  intro r hr
  exact ((mem_dedupAux r t.rows []).mp hr).1

theorem colIsObject_dedup (t : Table) (i : Nat)
    (h : colIsObject (dedupTable t) i = true) : colIsObject t i = true := by
  rw [colIsObject, List.any_eq_true] at h ⊢
  obtain ⟨r, hr, hstr⟩ := h
  exact ⟨r, dedupTable_sub t r hr, hstr⟩

theorem tidy_dedup (t : Table) (h : Tidy t) : Tidy (dedupTable t) := by
  constructor
  · intro r hr
    exact h.len_eq r (dedupTable_sub t r hr)
  · intro i hobj r hr
    exact h.obj_fixed i (colIsObject_dedup t i hobj) r (dedupTable_sub t r hr)
  · intro ti hti r hr
    exact h.title_ok ti hti r (dedupTable_sub t r hr)
  · intro yi hyi r hr
    exact h.year_ok yi hyi r (dedupTable_sub t r hr)

theorem clean_eq_dedup (t : Table) (h : Tidy t) : clean_data t = dedupTable t := by
  have hd := tidy_dedup t h
  unfold clean_data
  rw [stripTable_eq_self _ hd.len_eq hd.obj_fixed,
    filterTitle_eq_self _ hd.title_ok,
    coerceYears_eq_self _ hd.year_ok]

theorem stripRow_length (t : Table) (r : List Value) :
    (stripRow t r).length = t.cols.length := by simp [stripRow]

theorem stripRow_getD_lt (t : Table) (r : List Value) (i : Nat) (h : i < t.cols.length) :
    (stripRow t r).getD i .null
      = if colIsObject t i then stripValue (r.getD i .null) else r.getD i .null := by
  rw [getD_lt _ _ (by simp [stripRow, h])]
  simp [stripRow]

theorem stripRow_getD_ge (t : Table) (r : List Value) (i : Nat)
    (h : t.cols.length ≤ i) : (stripRow t r).getD i .null = .null :=
  getD_ge _ _ (by simp [stripRow, h])

theorem mem_stripTable (t : Table) (r : List Value) (hr : r ∈ (stripTable t).rows) :
    ∃ r0 ∈ t.rows, r = stripRow t r0 := by
  obtain ⟨r0, h0, he⟩ := List.mem_map.mp hr
  exact ⟨r0, h0, he.symm⟩

theorem filterTitle_rows_sub (t : Table) :
    ∀ r ∈ (filterTitle t).rows, r ∈ t.rows := by
  unfold filterTitle
  intro r hr
  split at hr
  · exact (List.mem_filter.mp hr).1
  · exact hr

theorem filterTitle_rows_prop (t : Table) (ti : Nat)
    (h : colIdx? t.cols "title" = some ti) :
    ∀ r ∈ (filterTitle t).rows, (r.getD ti .null != Value.null) = true := by
  simp only [filterTitle, h]
  intro r hr
  exact (List.mem_filter.mp hr).2

theorem coerceYears_none (t : Table) (h : colIdx? t.cols "release_year" = none) :
    coerceYears t = t := by
  simp [coerceYears, h]

theorem coerceYears_rows (t : Table) (yi : Nat)
    (h : colIdx? t.cols "release_year" = some yi) :
    (coerceYears t).rows
      = t.rows.map (fun r => r.set yi (coerceValue (r.getD yi .null))) := by
  simp [coerceYears, h]

theorem colIsObject_false_all (t : Table) (i : Nat) (h : colIsObject t i = false) :
    ∀ r ∈ t.rows, (r.getD i .null).isStr = false := by
  rw [colIsObject, List.any_eq_false] at h
  intro r hr
  exact Bool.eq_false_iff.mpr (h r hr)

theorem colIsObject_true_exists (t : Table) (i : Nat) (h : colIsObject t i = true) :
    ∃ r ∈ t.rows, (r.getD i .null).isStr = true := by
  rw [colIsObject, List.any_eq_true] at h
  exact h

theorem tidy_clean (t : Table) : Tidy (clean_data t) := by
  have hC : clean_data t
      = coerceYears (filterTitle (stripTable (dedupTable t))) := rfl
  have hFmem : ∀ r ∈ (filterTitle (stripTable (dedupTable t))).rows,
      ∃ r0 ∈ (dedupTable t).rows, r = stripRow (dedupTable t) r0 := by
    intro r hr
    exact mem_stripTable _ r (filterTitle_rows_sub _ r hr)
  have hFlen : ∀ r ∈ (filterTitle (stripTable (dedupTable t))).rows,
      r.length = t.cols.length := by
    intro r hr
    obtain ⟨r0, _, rfl⟩ := hFmem r hr
    exact stripRow_length _ r0
  have hFobj : ∀ i, i < t.cols.length →
      colIsObject (dedupTable t) i = true →
      ∀ r ∈ (filterTitle (stripTable (dedupTable t))).rows,
        stripValue (r.getD i .null) = r.getD i .null := by
    intro i hi hobj r hr
    obtain ⟨r0, _, rfl⟩ := hFmem r hr
    rw [stripRow_getD_lt (dedupTable t) r0 i hi, if_pos hobj]
    exact stripValue_idem _
  have hFnostr : ∀ i, colIsObject (dedupTable t) i = false →
      ∀ r ∈ (filterTitle (stripTable (dedupTable t))).rows,
        (r.getD i .null).isStr = false := by
    intro i hobj r hr
    obtain ⟨r0, hr0, rfl⟩ := hFmem r hr
    by_cases hi : i < t.cols.length
    · rw [stripRow_getD_lt (dedupTable t) r0 i hi, if_neg (by simp [hobj])]
      exact colIsObject_false_all _ i hobj r0 hr0
    · rw [stripRow_getD_ge (dedupTable t) r0 i (by show t.cols.length ≤ i; omega)]
      rfl
  have hFtitle : ∀ ti, colIdx? t.cols "title" = some ti →
      ∀ r ∈ (filterTitle (stripTable (dedupTable t))).rows,
        (r.getD ti .null != Value.null) = true := by
    intro ti hti
    exact filterTitle_rows_prop _ ti hti
  cases hy : colIdx? t.cols "release_year" with
  | none =>
    have hCF : clean_data t = filterTitle (stripTable (dedupTable t)) := by
      rw [hC]
      exact coerceYears_none _ (by rw [filterTitle_cols]; exact hy)
    constructor
    · intro r hr
      rw [hCF] at hr
      rw [clean_data_cols]
      exact hFlen r hr
    · intro i hobj r hr
      rw [hCF] at hobj hr
      by_cases hi : i < t.cols.length
      · by_cases hobju : colIsObject (dedupTable t) i = true
        · exact hFobj i hi hobju r hr
        · obtain ⟨rr, hrr, hstr⟩ := colIsObject_true_exists _ i hobj
          rw [hFnostr i (Bool.eq_false_iff.mpr hobju) rr hrr] at hstr
          exact absurd hstr (by simp)
      · rw [getD_ge _ _ (by rw [hFlen r hr]; omega)]
        rfl
    · intro ti hti r hr
      rw [hCF] at hr
      rw [clean_data_cols] at hti
      exact hFtitle ti hti r hr
    · intro yi hyi r hr
      rw [clean_data_cols] at hyi
      rw [hy] at hyi
      exact absurd hyi (by simp)
  | some yi =>
    obtain ⟨hyiLen, hyiGet⟩ := colIdx?_spec "release_year" t.cols yi hy
    have hCrows : (clean_data t).rows
        = (filterTitle (stripTable (dedupTable t))).rows.map
            (fun r => r.set yi (coerceValue (r.getD yi .null))) := by
      rw [hC]
      exact coerceYears_rows _ yi (by rw [filterTitle_cols]; exact hy)
    have hCmem : ∀ r ∈ (clean_data t).rows,
        ∃ r1 ∈ (filterTitle (stripTable (dedupTable t))).rows,
          r = r1.set yi (coerceValue (r1.getD yi .null)) := by
      intro r hr
      rw [hCrows] at hr
      obtain ⟨r1, h1, he⟩ := List.mem_map.mp hr
      exact ⟨r1, h1, he.symm⟩
    constructor
    · intro r hr
      obtain ⟨r1, h1, rfl⟩ := hCmem r hr
      rw [clean_data_cols, List.length_set]
      exact hFlen r1 h1
    · intro i hobj r hr
      obtain ⟨r1, h1, rfl⟩ := hCmem r hr
      by_cases hiy : i = yi
      · subst hiy
        obtain ⟨rr, hrr, hstr⟩ := colIsObject_true_exists _ i hobj
        obtain ⟨rr1, hrr1, rfl⟩ := hCmem rr hrr
        rw [getD_set_lt _ _ _ (by rw [hFlen rr1 hrr1]; exact hyiLen)] at hstr
        rw [coerceValue_not_str] at hstr
        exact absurd hstr (by simp)
      · rw [getD_set_ne _ _ yi i (fun h => hiy h.symm)]
        by_cases hi : i < t.cols.length
        · by_cases hobju : colIsObject (dedupTable t) i = true
          · exact hFobj i hi hobju r1 h1
          · obtain ⟨rr, hrr, hstr⟩ := colIsObject_true_exists _ i hobj
            obtain ⟨rr1, hrr1, rfl⟩ := hCmem rr hrr
            rw [getD_set_ne _ _ yi i (fun h => hiy h.symm)] at hstr
            rw [hFnostr i (Bool.eq_false_iff.mpr hobju) rr1 hrr1] at hstr
            exact absurd hstr (by simp)
        · rw [getD_ge _ _ (by rw [hFlen r1 h1]; omega)]
          rfl
    · intro ti hti r hr
      rw [clean_data_cols] at hti
      obtain ⟨htiLen, htiGet⟩ := colIdx?_spec "title" t.cols ti hti
      have htiy : ti ≠ yi := by
        intro he
        subst he
        exact absurd (hyiGet.symm.trans htiGet) (by decide)
      obtain ⟨r1, h1, rfl⟩ := hCmem r hr
      rw [getD_set_ne _ _ yi ti (fun h => htiy h.symm)]
      exact hFtitle ti hti r1 h1
    · intro yi' hyi' r hr
      rw [clean_data_cols] at hyi'
      rw [hy] at hyi'
      have hee : yi = yi' := Option.some.inj hyi'
      subst hee
      obtain ⟨r1, h1, rfl⟩ := hCmem r hr
      rw [getD_set_coerce]
      exact coerceValue_idem _

/-- C2 counterexample: `clean_data` is not idempotent.  Trimming can make
two initially distinct rows equal ("a " and "a"); the first pass
deduplicates *before* trimming, so the cleaned table still holds the two
now-equal rows, and only a second pass removes one of them. -/
theorem c2_counterexample :
    clean_data (clean_data ⟨["title"], [[.str "a "], [.str "a"]]⟩)
      ≠ clean_data ⟨["title"], [[.str "a "], [.str "a"]]⟩ := by decide

/-- C2 (amended): `clean_data` is idempotent from the second application
on: `clean_data (clean_data T)` is a fixed point of `clean_data` for every
table `T`.  Single-application idempotence fails only because trimming and
year coercion can create new duplicate rows, which the next application's
deduplication step removes; after that the pipeline is stable. -/
theorem c2_clean_data_stabilizes (t : Table) :
    clean_data (clean_data (clean_data t)) = clean_data (clean_data t) := by
  have h1 : Tidy (clean_data t) := tidy_clean t
  have h2 : clean_data (clean_data t) = dedupTable (clean_data t) :=
    clean_eq_dedup _ h1
  have h3 : Tidy (dedupTable (clean_data t)) := tidy_dedup _ h1
  rw [h2, clean_eq_dedup _ h3]
  show (⟨(clean_data t).cols, dedupAux [] (dedupAux [] (clean_data t).rows)⟩ : Table)
      = ⟨(clean_data t).cols, dedupAux [] (clean_data t).rows⟩
  rw [dedupAux_idem]
